import Mathlib

/-!
Verification of the MasteringEQ measurement / curve-matching core.

The definitions below are shallow embeddings of the C++ functions in
Source/PluginProcessor.cpp and Source/PluginEditor.cpp; `float` arithmetic is
modelled by exact real arithmetic on ℝ, `std::complex<float>` by ℂ, and the
mutable vectors by Lean lists.  Each definition mirrors the control flow of
the corresponding C++ function.
-/

noncomputable section

open Real

/-- One sample of a discretized spectrum (struct SpectrumPoint). -/
structure SpectrumPoint where
  frequency : ℝ
  level : ℝ

/-- One reference-curve percentile band (struct ReferenceBand). -/
structure ReferenceBand where
  freq : ℝ
  p10 : ℝ
  median : ℝ
  p90 : ℝ

/-- Display scale constants from PluginProcessor.h (namespace DisplayScale). -/
def DisplayScaleMinDb : ℝ := 20

/-- juce::jlimit (lowerLimit, upperLimit, value). -/
def jlimit (lo hi v : ℝ) : ℝ :=
  if v < lo then lo else if hi < v then hi else v

/-- juce::jlimit on integers. -/
def jlimitInt (lo hi v : ℤ) : ℤ :=
  if v < lo then lo else if hi < v then hi else v

/-- juce::jmap (sourceValue, sourceMin, sourceMax, targetMin, targetMax). -/
def jmap (v s0 s1 t0 t1 : ℝ) : ℝ :=
  t0 + (t1 - t0) * (v - s0) / (s1 - s0)

/-- AudioPluginAudioProcessor::getAveragedSpectrum: reduces the accumulated
measurement snapshots to one spectrum by per-band power-domain averaging.
Returns the empty spectrum when no snapshot was accumulated. -/
def getAveragedSpectrum (measurementBuffer : List (List SpectrumPoint)) :
    List SpectrumPoint :=
  match measurementBuffer with
  | [] => []
  | first :: _ =>
    (List.range first.length).map (fun band =>
      let powers := measurementBuffer.filterMap (fun snapshot =>
        if band < snapshot.length then
          some ((10 : ℝ) ^ ((snapshot.getD band ⟨0, 0⟩).level / 10))
        else none)
      let powerSum := powers.sum
      let validCount := powers.length
      let floorDb : ℝ := -160
      let floorPower : ℝ := (10 : ℝ) ^ (floorDb / 10)
      let level :=
        if 0 < validCount then
          let meanPower := powerSum / (validCount : ℝ)
          if meanPower ≤ floorPower then floorDb else 10 * Real.logb 10 meanPower
        else floorDb
      ⟨(first.getD band ⟨0, 0⟩).frequency, level⟩)

/-- Loop body of sampleLogInterpolatedSpectrum: scan for the first point whose
frequency is ≥ fHz and interpolate against the previous point in log10-frequency
space; falling off the end returns the last point's level (pts.back().level). -/
def interpSegmentsS : SpectrumPoint → List SpectrumPoint → ℝ → ℝ
  | prev, [], _ => prev.level
  | prev, p :: rest, fHz =>
    if p.frequency ≥ fHz then
      prev.level +
        (Real.logb 10 fHz - Real.logb 10 prev.frequency) /
          (Real.logb 10 p.frequency - Real.logb 10 prev.frequency) *
          (p.level - prev.level)
    else interpSegmentsS p rest fHz

/-- sampleLogInterpolatedSpectrum (PluginEditor.cpp): log-frequency linear
interpolation of a spectrum with clamped extrapolation at both ends. -/
def sampleLogInterpolatedSpectrum (pts : List SpectrumPoint) (fHz fallbackDb : ℝ) : ℝ :=
  match pts with
  | [] => fallbackDb
  | p :: rest =>
    let back := (p :: rest).getLast (List.cons_ne_nil p rest)
    if fHz ≤ p.frequency then p.level
    else if fHz ≥ back.frequency then back.level
    else interpSegmentsS p rest fHz

/-- Loop body of sampleLogInterpolatedReferenceMedian. -/
def interpSegmentsR : ReferenceBand → List ReferenceBand → ℝ → ℝ
  | prev, [], _ => prev.median
  | prev, b :: rest, fHz =>
    if b.freq ≥ fHz then
      prev.median +
        (Real.logb 10 fHz - Real.logb 10 prev.freq) /
          (Real.logb 10 b.freq - Real.logb 10 prev.freq) *
          (b.median - prev.median)
    else interpSegmentsR b rest fHz

/-- sampleLogInterpolatedReferenceMedian (PluginEditor.cpp): log-frequency
linear interpolation of the reference medians with clamped extrapolation. -/
def sampleLogInterpolatedReferenceMedian (ref : List ReferenceBand) (fHz fallbackDb : ℝ) : ℝ :=
  match ref with
  | [] => fallbackDb
  | b :: rest =>
    let back := (b :: rest).getLast (List.cons_ne_nil b rest)
    if fHz ≤ b.freq then b.median
    else if fHz ≥ back.freq then back.median
    else interpSegmentsR b rest fHz

/-- Frequency ordering on spectrum points. -/
def freqLt (a b : SpectrumPoint) : Prop := a.frequency < b.frequency

/-- Frequency ordering on reference bands. -/
def bandFreqLt (a b : ReferenceBand) : Prop := a.freq < b.freq

instance : IsTrans SpectrumPoint freqLt := ⟨fun _ _ _ h1 h2 => lt_trans h1 h2⟩

instance : IsTrans ReferenceBand bandFreqLt := ⟨fun _ _ _ h1 h2 => lt_trans h1 h2⟩

/-- The interpolation loop, sampled exactly at the frequency of the j-th
remaining point, returns that point's level. -/
theorem interpSegmentsS_hit :
    ∀ (rest : List SpectrumPoint) (prev : SpectrumPoint) (j : ℕ) (hj : j < rest.length),
      0 < prev.frequency → (∀ q ∈ rest, 0 < q.frequency) →
      List.Chain freqLt prev rest →
      interpSegmentsS prev rest ((rest.get ⟨j, hj⟩).frequency) = (rest.get ⟨j, hj⟩).level := by
  intro rest
  induction rest with
  | nil => intro prev j hj; simp at hj
  | cons r rs ih =>
    intro prev j hj hprev hpos hchain
    have hr : prev.frequency < r.frequency := (List.chain_cons.mp hchain).1
    have hchainr : List.Chain freqLt r rs := (List.chain_cons.mp hchain).2
    have hrpos : 0 < r.frequency := hpos r (List.mem_cons_self r rs)
    match j with
    | 0 =>
      simp only [List.get]
      rw [interpSegmentsS, if_pos (le_refl r.frequency)]
      have hlog : Real.logb 10 prev.frequency < Real.logb 10 r.frequency :=
        Real.logb_lt_logb (by norm_num) hprev hr
      rw [div_self (sub_ne_zero.mpr (ne_of_gt hlog))]
      ring
    | j' + 1 =>
      have hj' : j' < rs.length := by simpa using hj
      have hmem : rs.get ⟨j', hj'⟩ ∈ rs := List.get_mem rs j' hj'
      have hlt : r.frequency < (rs.get ⟨j', hj'⟩).frequency := by
        have hp : List.Pairwise freqLt (r :: rs) := List.chain_iff_pairwise.mp hchainr
        exact (List.pairwise_cons.mp hp).1 _ hmem
      have hget : (r :: rs).get ⟨j' + 1, hj⟩ = rs.get ⟨j', hj'⟩ := rfl
      rw [hget, interpSegmentsS, if_neg (not_le.mpr hlt)]
      exact ih r j' hj' hrpos (fun q hq => hpos q (List.mem_cons_of_mem r hq)) hchainr

/-- Syntactic description of a run of the interpolation loop that ends in a
segment both of whose endpoints sit at level L. -/
def interpConstAtS : SpectrumPoint → List SpectrumPoint → ℝ → ℝ → Prop
  | _, [], _, _ => False
  | prev, p :: rest, fHz, L =>
    (fHz ≤ p.frequency ∧ prev.level = L ∧ p.level = L) ∨
      (p.frequency < fHz ∧ interpConstAtS p rest fHz L)

/-- If the loop lands in a segment with both endpoints at level L, it returns L
(whatever the interpolation parameter is). -/
theorem interpSegmentsS_const :
    ∀ (rest : List SpectrumPoint) (prev : SpectrumPoint) (fHz L : ℝ),
      interpConstAtS prev rest fHz L → interpSegmentsS prev rest fHz = L := by
  intro rest
  induction rest with
  | nil => intro prev fHz L h; exact absurd h id
  | cons r rs ih =>
    intro prev fHz L h
    rcases h with ⟨hle, h1, h2⟩ | ⟨hlt, hrec⟩
    · rw [interpSegmentsS, if_pos hle, h1, h2]
      ring
    · rw [interpSegmentsS, if_neg (not_le.mpr hlt)]
      exact ih r fHz L hrec

/-- Walking to an adjacent equal-level pair that brackets fHz establishes
interpConstAtS. -/
theorem interpConstAtS_of_pair :
    ∀ (j : ℕ) (rest : List SpectrumPoint) (prev : SpectrumPoint) (fHz L : ℝ)
      (hj : j + 1 < (prev :: rest).length),
      List.Chain freqLt prev rest →
      ((prev :: rest).get ⟨j, Nat.lt_of_succ_lt hj⟩).level = L →
      ((prev :: rest).get ⟨j + 1, hj⟩).level = L →
      ((prev :: rest).get ⟨j, Nat.lt_of_succ_lt hj⟩).frequency < fHz →
      fHz ≤ ((prev :: rest).get ⟨j + 1, hj⟩).frequency →
      interpConstAtS prev rest fHz L := by
  intro j
  induction j with
  | zero =>
    intro rest prev fHz L hj hchain h0 h1 hlo hhi
    match rest, hj with
    | r :: rs, _ =>
      exact Or.inl ⟨hhi, h0, h1⟩
  | succ j' ih =>
    intro rest prev fHz L hj hchain h0 h1 hlo hhi
    match rest, hj with
    | r :: rs, hj =>
      have hchain2 : List.Chain freqLt r rs := (List.chain_cons.mp hchain).2
      have hj2 : j' + 1 < (r :: rs).length := by simpa using hj
      have hrf : r.frequency < fHz := by
        have hle : r.frequency ≤ ((r :: rs).get ⟨j', Nat.lt_of_succ_lt hj2⟩).frequency := by
          match j' with
          | 0 => exact le_refl _
          | jj + 1 =>
            have hp : List.Pairwise freqLt (r :: rs) := List.chain_iff_pairwise.mp hchain2
            have hjj : jj < rs.length := by
              have := Nat.lt_of_succ_lt hj2
              simpa using this
            exact le_of_lt ((List.pairwise_cons.mp hp).1 _ (List.get_mem rs jj hjj))
        exact lt_of_le_of_lt hle hlo
      refine Or.inr ⟨hrf, ?_⟩
      exact ih rs r fHz L hj2 hchain2 h0 h1 hlo hhi

theorem sampleS_cons (p : SpectrumPoint) (rest : List SpectrumPoint) (fHz fb : ℝ) :
    sampleLogInterpolatedSpectrum (p :: rest) fHz fb =
      if fHz ≤ p.frequency then p.level
      else if fHz ≥ ((p :: rest).getLast (List.cons_ne_nil p rest)).frequency then
        ((p :: rest).getLast (List.cons_ne_nil p rest)).level
      else interpSegmentsS p rest fHz := rfl

/-- Frequencies are monotone along a frequency-sorted list of spectrum points. -/
theorem pairwise_get_freq_le (pts : List SpectrumPoint)
    (hpair : List.Pairwise freqLt pts) (i j : Fin pts.length) (hij : i.1 ≤ j.1) :
    (pts.get i).frequency ≤ (pts.get j).frequency := by
  rcases Nat.lt_or_ge i.1 j.1 with h | h
  · exact le_of_lt (List.pairwise_iff_get.mp hpair i j h)
  · have : i = j := Fin.ext (le_antisymm hij h)
    rw [this]

/-- Sampling at an existing point's frequency returns exactly that point's
level. -/
theorem sampleS_hit (pts : List SpectrumPoint) (fb : ℝ)
    (hpos : ∀ q ∈ pts, 0 < q.frequency) (hsort : List.Chain' freqLt pts) :
    ∀ (k : Fin pts.length),
      sampleLogInterpolatedSpectrum pts (pts.get k).frequency fb = (pts.get k).level := by
  match pts with
  | [] => intro k; exact absurd k.2 (by simp)
  | p :: rest =>
    have hchain : List.Chain freqLt p rest := hsort
    have hpair : List.Pairwise freqLt (p :: rest) := List.chain_iff_pairwise.mp hchain
    rintro ⟨k, hk⟩
    match k with
    | 0 =>
      have h0 : (p :: rest).get ⟨0, hk⟩ = p := rfl
      rw [h0, sampleS_cons, if_pos (le_refl _)]
    | j + 1 =>
      have hj : j < rest.length := by simpa using hk
      have hget : (p :: rest).get ⟨j + 1, hk⟩ = rest.get ⟨j, hj⟩ := rfl
      have hx : p.frequency < (rest.get ⟨j, hj⟩).frequency :=
        (List.pairwise_cons.mp hpair).1 _ (List.get_mem rest j hj)
      rw [hget, sampleS_cons, if_neg (not_le.mpr hx)]
      by_cases hlast : j + 1 = rest.length
      · have hlen : (p :: rest).length - 1 < (p :: rest).length := by simp
        have hb := List.get_length_sub_one (l := p :: rest) hlen
        have hfin : (⟨(p :: rest).length - 1, hlen⟩ : Fin (p :: rest).length) = ⟨j + 1, hk⟩ :=
          Fin.ext (by simp [hlast])
        rw [hfin] at hb
        rw [← hb, hget]
        rw [if_pos (le_refl _)]
      · have hjlt : j + 1 < rest.length := lt_of_le_of_ne (by omega) hlast
        have hlen : (p :: rest).length - 1 < (p :: rest).length := by simp
        have hb := List.get_length_sub_one (l := p :: rest) hlen
        have hlt : (rest.get ⟨j, hj⟩).frequency <
            (((p :: rest).getLast (List.cons_ne_nil p rest)).frequency) := by
          rw [← hb]
          have := List.pairwise_iff_get.mp hpair ⟨j + 1, hk⟩
            ⟨(p :: rest).length - 1, hlen⟩ (by simp; omega)
          rw [hget] at this
          exact this
        rw [if_neg (not_le.mpr hlt)]
        exact interpSegmentsS_hit rest p j hj (hpos p (List.mem_cons_self p rest))
          (fun q hq => hpos q (List.mem_cons_of_mem p hq)) hchain

/-- Sampling at or below the first point's frequency returns the first point's
level (clamped extrapolation). -/
theorem sampleS_first (pts : List SpectrumPoint) (fb fHz : ℝ) (hne : pts ≠ [])
    (hfirst : fHz ≤ (pts.get ⟨0, List.length_pos.mpr hne⟩).frequency) :
    sampleLogInterpolatedSpectrum pts fHz fb = (pts.get ⟨0, List.length_pos.mpr hne⟩).level := by
  match pts with
  | p :: rest =>
    have h0 : (p :: rest).get ⟨0, List.length_pos.mpr hne⟩ = p := rfl
    rw [h0] at hfirst ⊢
    rw [sampleS_cons, if_pos hfirst]

/-- Sampling at or above the last point's frequency returns the last point's
level (clamped extrapolation). -/
theorem sampleS_last (pts : List SpectrumPoint) (fb fHz : ℝ) (hlen : 2 ≤ pts.length)
    (hpair : List.Pairwise freqLt pts)
    (hlast : (pts.get ⟨pts.length - 1, by omega⟩).frequency ≤ fHz) :
    sampleLogInterpolatedSpectrum pts fHz fb =
      (pts.get ⟨pts.length - 1, by omega⟩).level := by
  match pts with
  | p :: rest =>
    have hlen2 : (p :: rest).length - 1 < (p :: rest).length := by simp
    have hb := List.get_length_sub_one (l := p :: rest) hlen2
    have hplt : p.frequency < ((p :: rest).get ⟨(p :: rest).length - 1, hlen2⟩).frequency := by
      have := List.pairwise_iff_get.mp hpair ⟨0, by simp⟩ ⟨(p :: rest).length - 1, hlen2⟩
        (by apply Fin.mk_lt_mk.mpr; simp at hlen ⊢; omega)
      exact this
    rw [sampleS_cons, if_neg (not_le.mpr (lt_of_lt_of_le hplt hlast)), ← hb,
      if_pos hlast]

/-- Sampling anywhere strictly inside a segment whose two endpoints share a
level L returns L; in particular at the geometric midpoint. -/
theorem sampleS_mid (pts : List SpectrumPoint) (fb : ℝ)
    (hpos : ∀ q ∈ pts, 0 < q.frequency) (hsort : List.Chain' freqLt pts)
    (k : ℕ) (hk : k + 1 < pts.length)
    (heq : (pts.get ⟨k, by omega⟩).level = (pts.get ⟨k + 1, hk⟩).level) :
    sampleLogInterpolatedSpectrum pts
        (Real.sqrt ((pts.get ⟨k, by omega⟩).frequency * (pts.get ⟨k + 1, hk⟩).frequency)) fb
      = (pts.get ⟨k, by omega⟩).level := by
  match pts with
  | p :: rest =>
    have hchain : List.Chain freqLt p rest := hsort
    have hpair : List.Pairwise freqLt (p :: rest) := List.chain_iff_pairwise.mp hchain
    have hk0 : k < (p :: rest).length := by omega
    have hx0pos : 0 < ((p :: rest).get ⟨k, hk0⟩).frequency :=
      hpos _ (List.get_mem _ k hk0)
    have hx1pos : 0 < ((p :: rest).get ⟨k + 1, hk⟩).frequency :=
      hpos _ (List.get_mem _ (k + 1) hk)
    have h01 : ((p :: rest).get ⟨k, hk0⟩).frequency <
        ((p :: rest).get ⟨k + 1, hk⟩).frequency :=
      List.pairwise_iff_get.mp hpair _ _ (Fin.mk_lt_mk.mpr (by omega))
    set f0 := ((p :: rest).get ⟨k, hk0⟩).frequency with hf0
    set f1 := ((p :: rest).get ⟨k + 1, hk⟩).frequency with hf1
    have hbr1 : f0 < Real.sqrt (f0 * f1) := by
      have h1 : f0 = Real.sqrt (f0 * f0) := (Real.sqrt_mul_self (le_of_lt hx0pos)).symm
      rw [h1]
      exact Real.sqrt_lt_sqrt (mul_nonneg (le_of_lt hx0pos) (le_of_lt hx0pos))
        (by nlinarith)
    have hbr2 : Real.sqrt (f0 * f1) < f1 := by
      have h1 : f1 = Real.sqrt (f1 * f1) := (Real.sqrt_mul_self (le_of_lt hx1pos)).symm
      conv_rhs => rw [h1]
      exact Real.sqrt_lt_sqrt (mul_nonneg (le_of_lt hx0pos) (le_of_lt hx1pos))
        (by nlinarith)
    have hple : p.frequency ≤ f0 :=
      pairwise_get_freq_le (p :: rest) hpair ⟨0, by simp⟩ ⟨k, hk0⟩ (by simp)
    have hlen2 : (p :: rest).length - 1 < (p :: rest).length := by simp
    have hb := List.get_length_sub_one (l := p :: rest) hlen2
    have hlastge : f1 ≤ ((p :: rest).get ⟨(p :: rest).length - 1, hlen2⟩).frequency := by
      apply pairwise_get_freq_le (p :: rest) hpair ⟨k + 1, hk⟩
        ⟨(p :: rest).length - 1, hlen2⟩
      show k + 1 ≤ (p :: rest).length - 1
      simp at hk ⊢
      omega
    rw [sampleS_cons, if_neg (not_le.mpr (lt_of_le_of_lt hple hbr1)), ← hb,
      if_neg (not_le.mpr (lt_of_lt_of_le hbr2 hlastge))]
    exact interpSegmentsS_const rest p _ _
      (interpConstAtS_of_pair k rest p _ _ hk hchain rfl heq.symm
        (lt_of_le_of_lt (le_refl f0) hbr1) (le_of_lt hbr2))

/-- View of a reference band as a (frequency, median-level) spectrum point. -/
def refToPoint (b : ReferenceBand) : SpectrumPoint := ⟨b.freq, b.median⟩

theorem interpSegmentsR_eq (rest : List ReferenceBand) :
    ∀ (prev : ReferenceBand) (fHz : ℝ),
      interpSegmentsR prev rest fHz =
        interpSegmentsS (refToPoint prev) (rest.map refToPoint) fHz := by
  induction rest with
  | nil => intro prev fHz; rfl
  | cons b bs ih =>
    intro prev fHz
    rw [List.map_cons, interpSegmentsR, interpSegmentsS]
    simp only [refToPoint]
    by_cases h : fHz ≤ b.freq
    · rw [if_pos h, if_pos h]
    · rw [if_neg h, if_neg h]
      exact ih b fHz

theorem sampleR_eq (ref : List ReferenceBand) (fHz fb : ℝ) :
    sampleLogInterpolatedReferenceMedian ref fHz fb =
      sampleLogInterpolatedSpectrum (ref.map refToPoint) fHz fb := by
  match ref with
  | [] => rfl
  | b :: bs =>
    rw [List.map_cons, sampleS_cons]
    have hlast : ((refToPoint b :: bs.map refToPoint).getLast (by simp)) =
        refToPoint ((b :: bs).getLast (List.cons_ne_nil b bs)) :=
      List.getLast_map refToPoint (b :: bs) (by simp)
    rw [sampleLogInterpolatedReferenceMedian, hlast]
    simp only [refToPoint]
    by_cases h1 : fHz ≤ b.freq
    · rw [if_pos h1, if_pos h1]
    · rw [if_neg h1, if_neg h1]
      by_cases h2 : fHz ≥ ((b :: bs).getLast (List.cons_ne_nil b bs)).freq
      · rw [if_pos h2, if_pos h2]
      · rw [if_neg h2, if_neg h2]
        exact interpSegmentsR_eq bs b fHz

/-- C3: for log-frequency linear interpolation of a curve with 3 or more
frequency-ordered (strictly increasing, positive-frequency) points, both
sampleLogInterpolatedSpectrum and sampleLogInterpolatedReferenceMedian return:
the exact level of an existing point when sampled at its frequency; the first
point's level at or below the first frequency and the last point's level at or
above the last frequency (clamped, no extrapolation); and the common level when
sampled at the geometric midpoint of two adjacent equal-level points. -/
theorem C3_log_interpolation
    (pts : List SpectrumPoint) (ref : List ReferenceBand) (fb fbR : ℝ)
    (hplen : 3 ≤ pts.length) (hppos : ∀ q ∈ pts, 0 < q.frequency)
    (hpsort : List.Chain' freqLt pts)
    (hrlen : 3 ≤ ref.length) (hrpos : ∀ b ∈ ref, 0 < b.freq)
    (hrsort : List.Chain' bandFreqLt ref) :
    (∀ (k : Fin pts.length),
        sampleLogInterpolatedSpectrum pts (pts.get k).frequency fb = (pts.get k).level) ∧
    (∀ fHz, fHz ≤ (pts.get ⟨0, by omega⟩).frequency →
        sampleLogInterpolatedSpectrum pts fHz fb = (pts.get ⟨0, by omega⟩).level) ∧
    (∀ fHz, (pts.get ⟨pts.length - 1, by omega⟩).frequency ≤ fHz →
        sampleLogInterpolatedSpectrum pts fHz fb =
          (pts.get ⟨pts.length - 1, by omega⟩).level) ∧
    (∀ (k : ℕ) (hk : k + 1 < pts.length),
        (pts.get ⟨k, by omega⟩).level = (pts.get ⟨k + 1, hk⟩).level →
        sampleLogInterpolatedSpectrum pts
            (Real.sqrt ((pts.get ⟨k, by omega⟩).frequency *
              (pts.get ⟨k + 1, hk⟩).frequency)) fb
          = (pts.get ⟨k, by omega⟩).level) ∧
    (∀ (k : Fin ref.length),
        sampleLogInterpolatedReferenceMedian ref (ref.get k).freq fbR = (ref.get k).median) ∧
    (∀ fHz, fHz ≤ (ref.get ⟨0, by omega⟩).freq →
        sampleLogInterpolatedReferenceMedian ref fHz fbR = (ref.get ⟨0, by omega⟩).median) ∧
    (∀ fHz, (ref.get ⟨ref.length - 1, by omega⟩).freq ≤ fHz →
        sampleLogInterpolatedReferenceMedian ref fHz fbR =
          (ref.get ⟨ref.length - 1, by omega⟩).median) ∧
    (∀ (k : ℕ) (hk : k + 1 < ref.length),
        (ref.get ⟨k, by omega⟩).median = (ref.get ⟨k + 1, hk⟩).median →
        sampleLogInterpolatedReferenceMedian ref
            (Real.sqrt ((ref.get ⟨k, by omega⟩).freq * (ref.get ⟨k + 1, hk⟩).freq)) fbR
          = (ref.get ⟨k, by omega⟩).median) := by
  have hpair : List.Pairwise freqLt pts := by
    match pts, hplen with
    | p :: rest, _ => exact List.chain_iff_pairwise.mp hpsort
  have hposm : ∀ q ∈ ref.map refToPoint, 0 < q.frequency := by
    intro q hq
    obtain ⟨b, hb, rfl⟩ := List.mem_map.mp hq
    exact hrpos b hb
  have hsortm : List.Chain' freqLt (ref.map refToPoint) :=
    (List.chain'_map refToPoint).mpr hrsort
  have hpairm : List.Pairwise freqLt (ref.map refToPoint) := by
    match h : ref.map refToPoint with
    | [] => exact List.Pairwise.nil
    | p :: rest =>
      rw [← h]
      have : ref.map refToPoint ≠ [] := by rw [h]; exact List.cons_ne_nil p rest
      match ref, this with
      | b :: bs, _ => exact List.chain_iff_pairwise.mp hsortm
  have hlenm : (ref.map refToPoint).length = ref.length := List.length_map ref refToPoint
  have hgm : ∀ (k : ℕ) (hk : k < ref.length),
      (ref.map refToPoint).get ⟨k, by omega⟩ = refToPoint (ref.get ⟨k, hk⟩) := by
    intro k hk
    simp
  refine ⟨?_, ?_, ?_, ?_, ?_, ?_, ?_, ?_⟩
  · exact sampleS_hit pts fb hppos hpsort
  · intro fHz h
    exact sampleS_first pts fb fHz (by intro hnil; rw [hnil] at hplen; simp at hplen) h
  · intro fHz h
    exact sampleS_last pts fb fHz (by omega) hpair h
  · intro k hk heq
    exact sampleS_mid pts fb hppos hpsort k hk heq
  · rintro ⟨k, hk⟩
    have hk2 : k < (ref.map refToPoint).length := by omega
    have h := sampleS_hit (ref.map refToPoint) fbR hposm hsortm ⟨k, hk2⟩
    rw [hgm k hk] at h
    rw [sampleR_eq]
    exact h
  · intro fHz hle
    have hne : ref.map refToPoint ≠ [] := by
      intro hnil
      rw [← hlenm, hnil] at hrlen
      simp at hrlen
    have h0 : (ref.map refToPoint).get ⟨0, List.length_pos.mpr hne⟩ =
        refToPoint (ref.get ⟨0, by omega⟩) := hgm 0 (by omega)
    have h := sampleS_first (ref.map refToPoint) fbR fHz hne (by rw [h0]; exact hle)
    rw [h0] at h
    rw [sampleR_eq]
    exact h
  · intro fHz hge
    have hlast : (ref.map refToPoint).get ⟨(ref.map refToPoint).length - 1, by omega⟩ =
        refToPoint (ref.get ⟨ref.length - 1, by omega⟩) := by
      have hfx : (⟨(ref.map refToPoint).length - 1, by omega⟩ :
          Fin (ref.map refToPoint).length) = ⟨ref.length - 1, by omega⟩ :=
        Fin.ext (by simp)
      rw [hfx]
      exact hgm (ref.length - 1) (by omega)
    have h := sampleS_last (ref.map refToPoint) fbR fHz (by omega) hpairm
      (by rw [hlast]; exact hge)
    rw [hlast] at h
    rw [sampleR_eq]
    exact h
  · intro k hk heq
    have hk2 : k + 1 < (ref.map refToPoint).length := by omega
    have hga : (ref.map refToPoint).get ⟨k, by omega⟩ =
        refToPoint (ref.get ⟨k, by omega⟩) := hgm k (by omega)
    have hgb : (ref.map refToPoint).get ⟨k + 1, hk2⟩ =
        refToPoint (ref.get ⟨k + 1, hk⟩) := hgm (k + 1) hk
    have h := sampleS_mid (ref.map refToPoint) fbR hposm hsortm k hk2
      (by rw [hga, hgb]; exact heq)
    rw [hga, hgb] at h
    rw [sampleR_eq]
    exact h

/-- Witness for C3 at a concrete 3-point curve: sampling the middle point's
frequency (10 Hz) returns its exact level, and the geometric midpoint of the
first two (equal-level) points returns that common level. -/
theorem C3_log_interpolation_witness :
    3 ≤ ([⟨1, 5⟩, ⟨10, 5⟩, ⟨100, 7⟩] : List SpectrumPoint).length ∧
    sampleLogInterpolatedSpectrum [⟨1, 5⟩, ⟨10, 5⟩, ⟨100, 7⟩] 10 0 = 5 ∧
    sampleLogInterpolatedSpectrum [⟨1, 5⟩, ⟨10, 5⟩, ⟨100, 7⟩] (Real.sqrt (1 * 10)) 0 = 5 ∧
    sampleLogInterpolatedReferenceMedian [⟨1, 0, 2, 3⟩, ⟨10, 1, 4, 9⟩, ⟨100, 1, 6, 9⟩] 10 0 = 4 := by
  have h := C3_log_interpolation
    [⟨1, 5⟩, ⟨10, 5⟩, ⟨100, 7⟩] [⟨1, 0, 2, 3⟩, ⟨10, 1, 4, 9⟩, ⟨100, 1, 6, 9⟩] 0 0
    (by norm_num)
    (by intro q hq; simp at hq; rcases hq with h | h | h <;> rw [h] <;> norm_num)
    (by refine List.chain'_cons.mpr ⟨?_, List.chain'_cons.mpr ⟨?_, ?_⟩⟩ <;>
      simp [freqLt] <;> norm_num)
    (by norm_num)
    (by intro b hb; simp at hb; rcases hb with h | h | h <;> rw [h] <;> norm_num)
    (by refine List.chain'_cons.mpr ⟨?_, List.chain'_cons.mpr ⟨?_, ?_⟩⟩ <;>
      simp [bandFreqLt] <;> norm_num)
  refine ⟨by norm_num, ?_, ?_, ?_⟩
  · have := h.1 ⟨1, by norm_num⟩
    simpa using this
  · have := h.2.2.2.1 0 (by norm_num) (by simp)
    simpa using this
  · have := h.2.2.2.2.1 ⟨1, by norm_num⟩
    simpa using this

/-- C5: getAveragedSpectrum averages in the power domain: it is empty for an
empty measurement buffer; two −20 dB snapshots average to exactly −20 dB; a
−20 dB snapshot and a floor (−160 dB) snapshot average to
10·log10((10^(−2) + 10^(−16))/2), which lies strictly between −160 and −20. -/
theorem C5_power_domain_averaging (f : ℝ) :
    getAveragedSpectrum [] = [] ∧
    getAveragedSpectrum [[⟨f, -20⟩], [⟨f, -20⟩]] = [⟨f, -20⟩] ∧
    (getAveragedSpectrum [[⟨f, -20⟩], [⟨f, -160⟩]]).map (fun p => p.level) =
      [10 * Real.logb 10 (((10 : ℝ) ^ ((-20 : ℝ) / 10) + (10 : ℝ) ^ ((-160 : ℝ) / 10)) / 2)] ∧
    (-160 : ℝ) < 10 * Real.logb 10 (((10 : ℝ) ^ ((-20 : ℝ) / 10) + (10 : ℝ) ^ ((-160 : ℝ) / 10)) / 2) ∧
    10 * Real.logb 10 (((10 : ℝ) ^ ((-20 : ℝ) / 10) + (10 : ℝ) ^ ((-160 : ℝ) / 10)) / 2) < -20 := by
  have h10 : (1 : ℝ) < 10 := by norm_num
  have hlt : ((10 : ℝ) ^ ((-160 : ℝ) / 10)) < (10 : ℝ) ^ ((-20 : ℝ) / 10) := by
    apply Real.rpow_lt_rpow_left_iff h10 |>.mpr
    norm_num
  have hpos16 : (0 : ℝ) < (10 : ℝ) ^ ((-160 : ℝ) / 10) :=
    Real.rpow_pos_of_pos (by norm_num) _
  have hpos2 : (0 : ℝ) < (10 : ℝ) ^ ((-20 : ℝ) / 10) :=
    Real.rpow_pos_of_pos (by norm_num) _
  have hmean_gt : (10 : ℝ) ^ ((-160 : ℝ) / 10) <
      ((10 : ℝ) ^ ((-20 : ℝ) / 10) + (10 : ℝ) ^ ((-160 : ℝ) / 10)) / 2 := by
    linarith
  have hmean_lt : ((10 : ℝ) ^ ((-20 : ℝ) / 10) + (10 : ℝ) ^ ((-160 : ℝ) / 10)) / 2 <
      (10 : ℝ) ^ ((-20 : ℝ) / 10) := by
    linarith
  have hmean_pos : (0 : ℝ) <
      ((10 : ℝ) ^ ((-20 : ℝ) / 10) + (10 : ℝ) ^ ((-160 : ℝ) / 10)) / 2 := by
    linarith
  have hlogm2 : Real.logb 10 ((10 : ℝ) ^ ((-20 : ℝ) / 10)) = -2 := by
    rw [Real.logb_rpow (by norm_num) (by norm_num)]
    norm_num
  have hlogm16 : Real.logb 10 ((10 : ℝ) ^ ((-160 : ℝ) / 10)) = -16 := by
    rw [Real.logb_rpow (by norm_num) (by norm_num)]
    norm_num
  refine ⟨rfl, ?_, ?_, ?_, ?_⟩
  · -- two −20 dB snapshots
    simp only [getAveragedSpectrum, List.length_cons, List.length_nil, List.range_succ,
      List.range_zero, List.map_cons, List.map_nil, List.nil_append, List.filterMap]
    norm_num [List.getD]
    have h100 : Real.logb 10 ((1 : ℝ) / 100) = -2 := by
      rw [show ((1 : ℝ) / 100) = (10 : ℝ) ^ ((-2 : ℝ)) by norm_num,
        Real.logb_rpow (by norm_num) (by norm_num)]
    rw [h100]
    norm_num
  · -- −20 dB and floor snapshot
    simp only [getAveragedSpectrum, List.length_cons, List.length_nil, List.range_succ,
      List.range_zero, List.map_cons, List.map_nil, List.nil_append, List.filterMap]
    norm_num [List.getD]
  · -- strictly above the floor
    have hlog : Real.logb 10 ((10 : ℝ) ^ ((-160 : ℝ) / 10)) <
        Real.logb 10 (((10 : ℝ) ^ ((-20 : ℝ) / 10) + (10 : ℝ) ^ ((-160 : ℝ) / 10)) / 2) :=
      Real.logb_lt_logb h10 hpos16 hmean_gt
    rw [hlogm16] at hlog
    linarith
  · -- strictly below −20 dB
    have hlog : Real.logb 10 (((10 : ℝ) ^ ((-20 : ℝ) / 10) + (10 : ℝ) ^ ((-160 : ℝ) / 10)) / 2) <
        Real.logb 10 ((10 : ℝ) ^ ((-20 : ℝ) / 10)) :=
      Real.logb_lt_logb h10 hmean_pos hmean_lt
    rw [hlogm2] at hlog
    linarith

/-- Witness for C5 at 1000 Hz: two −20 dB snapshots average to exactly −20 dB. -/
theorem C5_power_domain_averaging_witness :
    getAveragedSpectrum [[⟨1000, -20⟩], [⟨1000, -20⟩]] = [⟨1000, -20⟩] :=
  (C5_power_domain_averaging 1000).2.1

/-- The 31 fixed EQ band center frequencies (eqFrequencies, PluginEditor.h). -/
def eqFrequencies : List ℝ :=
  [20, 25, 31.5, 40, 50, 63, 80, 100, 125, 160,
   200, 250, 315, 400, 500, 630, 800, 1000, 1250, 1600,
   2000, 2500, 3150, 4000, 5000, 6300, 8000, 10000, 12500, 16000, 20000]

/-- edgeWeight (PluginEditor.cpp): fade residuals in from 20 Hz to 40 Hz and
out from 16 kHz to 20 kHz, 1 in between. -/
def edgeWeight (f : ℝ) : ℝ :=
  if f < 40 then jlimit 0 1 (jmap f 20 40 0 1)
  else if f > 16000 then jlimit 0 1 (jmap f 16000 20000 1 0)
  else 1

/-- findReferenceLevel (second definition in PluginEditor.cpp): log-interpolated
reference median with the display floor as fallback. -/
def findReferenceLevel (referenceBands : List ReferenceBand) (frequency : ℝ) : ℝ :=
  sampleLogInterpolatedReferenceMedian referenceBands frequency DisplayScaleMinDb

/-- findMeasuredLevel (second definition in PluginEditor.cpp): log-interpolated
measured level with the display floor as fallback. -/
def findMeasuredLevel (spectrum : List SpectrumPoint) (frequency : ℝ) : ℝ :=
  sampleLogInterpolatedSpectrum spectrum frequency DisplayScaleMinDb

/-- calculateResidualsAligned (PluginEditor.cpp): per EQ band, gate the measured
level at the noise floor, add the alignment offset, difference against the
reference and weight by the edge fade. -/
def calculateResidualsAligned (referenceBands : List ReferenceBand)
    (spectrum : List SpectrumPoint) (offsetDb : ℝ) : List ℝ :=
  eqFrequencies.map (fun freq =>
    let refLevel := findReferenceLevel referenceBands freq
    let measuredLevel := findMeasuredLevel spectrum freq
    let gateDb := DisplayScaleMinDb + 10
    let gated := if measuredLevel < gateDb then gateDb else measuredLevel
    (refLevel - (gated + offsetDb)) * edgeWeight freq)

theorem getD_map_of_lt (l : List ℝ) (g : ℝ → ℝ) (i : ℕ) (hi : i < l.length) :
    (l.map g).getD i 0 = g (l.getD i 0) := by
  induction l generalizing i with
  | nil => simp at hi
  | cons x xs ih =>
    match i with
    | 0 => rfl
    | j + 1 =>
      have hj : j < xs.length := by simpa using hi
      simpa using ih j hj

/-- C7: calculateResidualsAligned produces exactly 31 residuals aligned to the
EQ band frequencies; the measured level is clamped up to the noise gate
(display floor + 10 dB), the alignment offset is added to the measured side,
and each residual carries the edge-fade weight, which is 1 on [40 Hz, 16 kHz],
tapers linearly to 0 at 20 Hz and 20 kHz, and zeroes the first (20 Hz) and
last (20 kHz) residual exactly. -/
theorem C7_residuals_aligned (referenceBands : List ReferenceBand)
    (spectrum : List SpectrumPoint) (offsetDb : ℝ) :
    (calculateResidualsAligned referenceBands spectrum offsetDb).length = 31 ∧
    (∀ f : ℝ, 40 ≤ f → f ≤ 16000 → edgeWeight f = 1) ∧
    (∀ f : ℝ, 20 ≤ f → f ≤ 40 → edgeWeight f = (f - 20) / 20) ∧
    (∀ f : ℝ, 16000 ≤ f → f ≤ 20000 → edgeWeight f = (20000 - f) / 4000) ∧
    (calculateResidualsAligned referenceBands spectrum offsetDb).getD 0 0 = 0 ∧
    (calculateResidualsAligned referenceBands spectrum offsetDb).getD 30 0 = 0 ∧
    (∀ (i : ℕ), i < 31 →
      (calculateResidualsAligned referenceBands spectrum offsetDb).getD i 0 =
        (findReferenceLevel referenceBands (eqFrequencies.getD i 0) -
          (max (DisplayScaleMinDb + 10)
            (findMeasuredLevel spectrum (eqFrequencies.getD i 0)) + offsetDb)) *
          edgeWeight (eqFrequencies.getD i 0)) := by
  have hw20 : edgeWeight 20 = 0 := by
    rw [edgeWeight, if_pos (by norm_num)]
    norm_num [jmap, jlimit]
  have hw20000 : edgeWeight 20000 = 0 := by
    rw [edgeWeight, if_neg (by norm_num), if_pos (by norm_num)]
    norm_num [jmap, jlimit]
  refine ⟨?_, ?_, ?_, ?_, ?_, ?_, ?_⟩
  · rw [calculateResidualsAligned, List.length_map]
    rfl
  · intro f h1 h2
    rw [edgeWeight, if_neg (by linarith), if_neg (by linarith)]
  · intro f h1 h2
    by_cases h : f < 40
    · rw [edgeWeight, if_pos h, jmap, jlimit]
      rw [if_neg (by rw [not_lt]; nlinarith), if_neg (by rw [not_lt]; nlinarith)]
      ring
    · have hf : f = 40 := by linarith [not_lt.mp h]
      rw [hf, edgeWeight, if_neg (by norm_num), if_neg (by norm_num)]
      norm_num
  · intro f h1 h2
    by_cases h : f > 16000
    · rw [edgeWeight, if_neg (by linarith), if_pos h, jmap, jlimit]
      rw [if_neg (by rw [not_lt]; nlinarith), if_neg (by rw [not_lt]; nlinarith)]
      ring
    · have hf : f = 16000 := by linarith [not_lt.mp h]
      rw [hf, edgeWeight, if_neg (by norm_num), if_neg (by norm_num)]
      norm_num
  · rw [calculateResidualsAligned]
    rw [getD_map_of_lt _ _ 0 (by norm_num [eqFrequencies])]
    show _ * edgeWeight (eqFrequencies.getD 0 0) = 0
    rw [show eqFrequencies.getD 0 0 = 20 from rfl, hw20, mul_zero]
  · rw [calculateResidualsAligned]
    rw [getD_map_of_lt _ _ 30 (by norm_num [eqFrequencies])]
    show _ * edgeWeight (eqFrequencies.getD 30 0) = 0
    rw [show eqFrequencies.getD 30 0 = 20000 from rfl, hw20000, mul_zero]
  · intro i hi
    rw [calculateResidualsAligned,
      getD_map_of_lt _ _ i (by rw [show eqFrequencies.length = 31 from rfl]; omega)]
    have hmax : (if findMeasuredLevel spectrum (eqFrequencies.getD i 0) <
          DisplayScaleMinDb + 10 then DisplayScaleMinDb + 10
        else findMeasuredLevel spectrum (eqFrequencies.getD i 0)) =
        max (DisplayScaleMinDb + 10)
          (findMeasuredLevel spectrum (eqFrequencies.getD i 0)) := by
      rw [max_def]
      split_ifs <;> linarith
    show (_ - ((if _ < _ then _ else _) + _)) * _ = _
    rw [hmax]

/-- Witness for C7 at the empty curves: the 20 Hz residual is exactly 0 and the
result has exactly 31 entries. -/
theorem C7_residuals_aligned_witness :
    (calculateResidualsAligned [] [] 0).getD 0 0 = 0 ∧
    (calculateResidualsAligned [] [] 0).length = 31 :=
  ⟨(C7_residuals_aligned [] [] 0).2.2.2.2.1, (C7_residuals_aligned [] [] 0).1⟩

/-- Auto-EQ tuning constants (anonymous namespace, PluginEditor.cpp). -/
def kSpreadShrink : ℝ := 0.55

def kMaxBandWidthDb : ℝ := 6

def kMinBandWidthDb : ℝ := 1

def kAutoEqAmount : ℝ := 1.0

/-- Indices inside the moving-average window [i-half, i+half] that are valid
positions of a list of length n (the inner j-loop of smoothMovingAverage). -/
def windowIdxs (n half i : ℕ) : List ℕ :=
  (List.range n).filter (fun idx => decide (i ≤ idx + half ∧ idx ≤ i + half))

/-- One output sample of a single smoothing pass (the i-loop body of
smoothMovingAverage): average of the in-range window, or the input sample if
the window is empty. -/
def windowAvg (cur : List ℝ) (half i : ℕ) : ℝ :=
  let idxs := windowIdxs cur.length half i
  if 0 < idxs.length then
    (idxs.map (fun idx => cur.getD idx 0)).sum / (idxs.length : ℝ)
  else cur.getD i 0

/-- One full smoothing pass over the band axis. -/
def smoothPass (cur : List ℝ) (half : ℕ) : List ℝ :=
  (List.range cur.length).map (windowAvg cur half)

/-- Iterate smoothing passes (the pass-loop of smoothMovingAverage). -/
def smoothPasses : ℕ → List ℝ → ℕ → List ℝ
  | 0, cur, _ => cur
  | n + 1, cur, half => smoothPasses n (smoothPass cur half) half

/-- smoothMovingAverage (PluginEditor.cpp): band-axis moving average with
window size and pass count, identity on inputs shorter than 3 samples or
windows narrower than 3. -/
def smoothMovingAverage (input : List ℝ) (windowSize passes : ℕ) : List ℝ :=
  if input.length < 3 ∨ windowSize < 3 then input
  else smoothPasses passes input (windowSize / 2)

/-- postProcessReferenceBands (PluginEditor.cpp): smooth p10/median/p90 across
bands, shrink the spread around the median, clamp the width into
[kMinBandWidthDb, kMaxBandWidthDb], and re-clamp p10 ≤ median ≤ p90. -/
def postProcessReferenceBands (bands : List ReferenceBand) : List ReferenceBand :=
  if bands.length < 3 then bands
  else
    let p10s := smoothMovingAverage (bands.map (fun b => b.p10)) 5 2
    let meds := smoothMovingAverage (bands.map (fun b => b.median)) 5 2
    let p90s := smoothMovingAverage (bands.map (fun b => b.p90)) 5 2
    (List.range bands.length).map (fun i =>
      let m := meds.getD i 0
      let lo0 := m - kSpreadShrink * (m - p10s.getD i 0)
      let hi0 := m + kSpreadShrink * (p90s.getD i 0 - m)
      let w := hi0 - lo0
      let lo1 :=
        if w > kMaxBandWidthDb then m - 0.5 * kMaxBandWidthDb
        else if w < kMinBandWidthDb then m - 0.5 * kMinBandWidthDb
        else lo0
      let hi1 :=
        if w > kMaxBandWidthDb then m + 0.5 * kMaxBandWidthDb
        else if w < kMinBandWidthDb then m + 0.5 * kMinBandWidthDb
        else hi0
      let lo := if lo1 > m then m else lo1
      let hi := if hi1 < m then m else hi1
      { freq := (bands.getD i ⟨0, 0, 0, 0⟩).freq, p10 := lo, median := m, p90 := hi })

theorem getD_map_range (n : ℕ) (g : ℕ → ℝ) (i : ℕ) (hi : i < n) :
    ((List.range n).map g).getD i 0 = g i := by
  rw [List.getD_eq_getElem?_getD, List.getElem?_map, List.getElem?_range hi]
  rfl

theorem getD_map_band (bands : List ReferenceBand) (g : ReferenceBand → ℝ) (i : ℕ)
    (hi : i < bands.length) :
    (bands.map g).getD i 0 = g (bands.getD i ⟨0, 0, 0, 0⟩) := by
  induction bands generalizing i with
  | nil => simp at hi
  | cons x xs ih =>
    match i with
    | 0 => rfl
    | j + 1 =>
      have hj : j < xs.length := by simpa using hi
      simpa using ih j hj

theorem length_smoothPass (cur : List ℝ) (half : ℕ) :
    (smoothPass cur half).length = cur.length := by
  rw [smoothPass, List.length_map, List.length_range]

theorem length_smoothPasses (n : ℕ) :
    ∀ (cur : List ℝ) (half : ℕ), (smoothPasses n cur half).length = cur.length := by
  induction n with
  | zero => intro cur half; rfl
  | succ m ih =>
    intro cur half
    rw [smoothPasses, ih, length_smoothPass]

theorem length_smoothMovingAverage (input : List ℝ) (windowSize passes : ℕ) :
    (smoothMovingAverage input windowSize passes).length = input.length := by
  rw [smoothMovingAverage]
  split_ifs with h
  · rfl
  · exact length_smoothPasses passes input (windowSize / 2)

theorem windowAvg_mono (xs ys : List ℝ) (hlen : xs.length = ys.length)
    (hle : ∀ i, i < xs.length → xs.getD i 0 ≤ ys.getD i 0) (half i : ℕ) :
    windowAvg xs half i ≤ windowAvg ys half i := by
  rw [windowAvg, windowAvg, ← hlen]
  by_cases hc : 0 < (windowIdxs xs.length half i).length
  · rw [if_pos hc, if_pos hc]
    have hsum : ((windowIdxs xs.length half i).map (fun idx => xs.getD idx 0)).sum ≤
        ((windowIdxs xs.length half i).map (fun idx => ys.getD idx 0)).sum := by
      apply List.sum_le_sum
      intro idx hidx
      have hmem : idx ∈ List.range xs.length := List.mem_of_mem_filter hidx
      exact hle idx (List.mem_range.mp hmem)
    have hcR : (0 : ℝ) < ((windowIdxs xs.length half i).length : ℝ) := by
      exact_mod_cast hc
    exact (div_le_div_right hcR).mpr hsum
  · rw [if_neg hc, if_neg hc]
    by_cases hi : i < xs.length
    · exact hle i hi
    · rw [List.getD_eq_getElem?_getD, List.getElem?_eq_none (by omega),
        List.getD_eq_getElem?_getD, List.getElem?_eq_none (by omega)]

theorem smoothPass_mono (xs ys : List ℝ) (hlen : xs.length = ys.length)
    (hle : ∀ i, i < xs.length → xs.getD i 0 ≤ ys.getD i 0) :
    ∀ i, i < xs.length →
      (smoothPass xs half).getD i 0 ≤ (smoothPass ys half).getD i 0 := by
  intro i hi
  rw [smoothPass, smoothPass, getD_map_range _ _ i hi, getD_map_range _ _ i (by omega)]
  exact windowAvg_mono xs ys hlen hle half i

theorem smoothPasses_mono (n : ℕ) :
    ∀ (xs ys : List ℝ) (half : ℕ), xs.length = ys.length →
      (∀ i, i < xs.length → xs.getD i 0 ≤ ys.getD i 0) →
      ∀ i, i < xs.length →
        (smoothPasses n xs half).getD i 0 ≤ (smoothPasses n ys half).getD i 0 := by
  induction n with
  | zero => intro xs ys half _ hle i hi; exact hle i hi
  | succ m ih =>
    intro xs ys half hlen hle i hi
    rw [smoothPasses, smoothPasses]
    exact ih (smoothPass xs half) (smoothPass ys half) half
      (by rw [length_smoothPass, length_smoothPass, hlen])
      (by
        intro j hj
        rw [length_smoothPass] at hj
        exact smoothPass_mono xs ys hlen hle j hj)
      i (by rw [length_smoothPass]; exact hi)

theorem smoothMovingAverage_mono (xs ys : List ℝ) (windowSize passes : ℕ)
    (hlen : xs.length = ys.length)
    (hle : ∀ i, i < xs.length → xs.getD i 0 ≤ ys.getD i 0) :
    ∀ i, i < xs.length →
      (smoothMovingAverage xs windowSize passes).getD i 0 ≤
        (smoothMovingAverage ys windowSize passes).getD i 0 := by
  intro i hi
  rw [smoothMovingAverage, smoothMovingAverage, ← hlen]
  by_cases h : xs.length < 3 ∨ windowSize < 3
  · rw [if_pos h, if_pos h]
    exact hle i hi
  · rw [if_neg h, if_neg h]
    exact smoothPasses_mono passes xs ys (windowSize / 2) hlen hle i hi

theorem getD_map_range' {α : Type} (n : ℕ) (g : ℕ → α) (d : α) (i : ℕ) (hi : i < n) :
    ((List.range n).map g).getD i d = g i := by
  rw [List.getD_eq_getElem?_getD, List.getElem?_map, List.getElem?_range hi]
  rfl

theorem getD_mem_band (l : List ReferenceBand) (i : ℕ) (hi : i < l.length) :
    l.getD i ⟨0, 0, 0, 0⟩ ∈ l := by
  rw [List.getD_eq_getElem?_getD, List.getElem?_eq_getElem hi]
  exact List.getElem_mem hi

/-- C4 (amended): after postProcessReferenceBands on 3 or more bands, every
band satisfies p10 ≤ median ≤ p90 unconditionally; and when every input band
already satisfies p10 ≤ median ≤ p90, every output band's width p90 − p10 lies
in [kMinBandWidthDb, kMaxBandWidthDb] = [1, 6] dB. -/
theorem C4_percentile_invariant (bands : List ReferenceBand) (hlen : 3 ≤ bands.length) :
    (∀ b ∈ postProcessReferenceBands bands, b.p10 ≤ b.median ∧ b.median ≤ b.p90) ∧
    ((∀ b ∈ bands, b.p10 ≤ b.median ∧ b.median ≤ b.p90) →
      ∀ b ∈ postProcessReferenceBands bands,
        1 ≤ b.p90 - b.p10 ∧ b.p90 - b.p10 ≤ 6) := by
  constructor
  · intro b hb
    simp only [postProcessReferenceBands, if_neg (show ¬bands.length < 3 by omega),
      List.mem_map, List.mem_range] at hb
    obtain ⟨i, hi, rfl⟩ := hb
    dsimp only
    constructor
    · split_ifs <;> linarith
    · split_ifs <;> linarith
  · intro hin b hb
    simp only [postProcessReferenceBands, if_neg (show ¬bands.length < 3 by omega),
      List.mem_map, List.mem_range] at hb
    obtain ⟨i, hi, rfl⟩ := hb
    have hlenp : (bands.map (fun b => b.p10)).length = bands.length := List.length_map _ _
    have hlenm : (bands.map (fun b => b.median)).length = bands.length := List.length_map _ _
    have hlenq : (bands.map (fun b => b.p90)).length = bands.length := List.length_map _ _
    have ha : (smoothMovingAverage (bands.map (fun b => b.p10)) 5 2).getD i 0 ≤
        (smoothMovingAverage (bands.map (fun b => b.median)) 5 2).getD i 0 := by
      apply smoothMovingAverage_mono _ _ 5 2 (by rw [hlenp, hlenm])
      · intro j hj
        rw [hlenp] at hj
        rw [getD_map_band _ _ j hj, getD_map_band _ _ j hj]
        exact (hin _ (getD_mem_band bands j hj)).1
      · rw [hlenp]; exact hi
    have hc : (smoothMovingAverage (bands.map (fun b => b.median)) 5 2).getD i 0 ≤
        (smoothMovingAverage (bands.map (fun b => b.p90)) 5 2).getD i 0 := by
      apply smoothMovingAverage_mono _ _ 5 2 (by rw [hlenm, hlenq])
      · intro j hj
        rw [hlenm] at hj
        rw [getD_map_band _ _ j hj, getD_map_band _ _ j hj]
        exact (hin _ (getD_mem_band bands j hj)).2
      · rw [hlenm]; exact hi
    dsimp only
    have hks : kSpreadShrink = 0.55 := rfl
    have hkM : kMaxBandWidthDb = 6 := rfl
    have hkm : kMinBandWidthDb = 1 := rfl
    rw [hks, hkM, hkm]
    split_ifs <;> constructor <;> linarith

/-- Witness for C4 at three ordered bands {p10 = −1, median = 0, p90 = 1}: the
post-processed bands keep p10 ≤ median ≤ p90 and have width within [1, 6]. -/
theorem C4_percentile_invariant_witness :
    3 ≤ ([⟨100, -1, 0, 1⟩, ⟨100, -1, 0, 1⟩, ⟨100, -1, 0, 1⟩] : List ReferenceBand).length ∧
    (∀ b ∈ postProcessReferenceBands
        [⟨100, -1, 0, 1⟩, ⟨100, -1, 0, 1⟩, ⟨100, -1, 0, 1⟩],
      (b.p10 ≤ b.median ∧ b.median ≤ b.p90) ∧
        1 ≤ b.p90 - b.p10 ∧ b.p90 - b.p10 ≤ 6) := by
  have hin : ∀ b ∈ ([⟨100, -1, 0, 1⟩, ⟨100, -1, 0, 1⟩, ⟨100, -1, 0, 1⟩] : List ReferenceBand),
      b.p10 ≤ b.median ∧ b.median ≤ b.p90 := by
    intro b hb
    simp only [List.mem_cons, List.not_mem_nil, or_false] at hb
    rcases hb with h | h | h <;> rw [h] <;> norm_num
  have h := C4_percentile_invariant
    [⟨100, -1, 0, 1⟩, ⟨100, -1, 0, 1⟩, ⟨100, -1, 0, 1⟩] (by norm_num)
  exact ⟨by norm_num, fun b hb => ⟨h.1 b hb, h.2 hin b hb⟩⟩

theorem smoothConst3 (c : ℝ) : smoothMovingAverage [c, c, c] 5 2 = [c, c, c] := by
  have hw : ∀ i, i < 3 → windowAvg [c, c, c] 2 i = c := by
    have key : ∀ j : ℕ, windowIdxs 3 2 j = [0, 1, 2] → windowAvg [c, c, c] 2 j = c := by
      intro j hj
      rw [windowAvg, show ([c, c, c] : List ℝ).length = 3 from rfl, hj, if_pos (by norm_num)]
      show (c + (c + (c + 0))) / ((3 : ℕ) : ℝ) = c
      push_cast
      ring
    intro i hi
    interval_cases i
    · exact key 0 rfl
    · exact key 1 rfl
    · exact key 2 rfl
  have hpass : smoothPass [c, c, c] 2 = [c, c, c] := by
    rw [smoothPass, show ([c, c, c] : List ℝ).length = 3 from rfl,
      show List.range 3 = [0, 1, 2] from rfl]
    simp only [List.map_cons, List.map_nil]
    rw [hw 0 (by norm_num), hw 1 (by norm_num), hw 2 (by norm_num)]
  rw [smoothMovingAverage, if_neg (by norm_num),
    show smoothPasses 2 [c, c, c] (5 / 2) = smoothPass (smoothPass [c, c, c] 2) 2 from rfl,
    hpass, hpass]

/-- Counterexample for C4 as stated: three identical bands with p10 = 20,
median = 0, p90 = 28 (original width 8, neither narrower than the minimum nor
within bounds) post-process to a band of width 15.4 dB, outside [1, 6]. -/
theorem C4_percentile_counterexample :
    3 ≤ ([⟨100, 20, 0, 28⟩, ⟨100, 20, 0, 28⟩, ⟨100, 20, 0, 28⟩] : List ReferenceBand).length ∧
    ((28 : ℝ) - 20 = 8) ∧
    ((postProcessReferenceBands
        [⟨100, 20, 0, 28⟩, ⟨100, 20, 0, 28⟩, ⟨100, 20, 0, 28⟩]).getD 0 ⟨0, 0, 0, 0⟩).p90 -
      ((postProcessReferenceBands
        [⟨100, 20, 0, 28⟩, ⟨100, 20, 0, 28⟩, ⟨100, 20, 0, 28⟩]).getD 0 ⟨0, 0, 0, 0⟩).p10
      = 15.4 ∧
    ¬((15.4 : ℝ) ≤ 6) := by
  refine ⟨by norm_num, by norm_num, ?_, by norm_num⟩
  rw [postProcessReferenceBands, if_neg (by norm_num)]
  rw [show ([⟨100, 20, 0, 28⟩, ⟨100, 20, 0, 28⟩, ⟨100, 20, 0, 28⟩] :
      List ReferenceBand).map (fun b => b.p10) = [20, 20, 20] from rfl]
  rw [show ([⟨100, 20, 0, 28⟩, ⟨100, 20, 0, 28⟩, ⟨100, 20, 0, 28⟩] :
      List ReferenceBand).map (fun b => b.median) = [0, 0, 0] from rfl]
  rw [show ([⟨100, 20, 0, 28⟩, ⟨100, 20, 0, 28⟩, ⟨100, 20, 0, 28⟩] :
      List ReferenceBand).map (fun b => b.p90) = [28, 28, 28] from rfl]
  rw [smoothConst3, smoothConst3, smoothConst3]
  rw [getD_map_range' _ _ _ 0 (by norm_num)]
  dsimp only
  rw [show (([0, 0, 0] : List ℝ).getD 0 0) = 0 from rfl,
    show (([20, 20, 20] : List ℝ).getD 0 0) = 20 from rfl,
    show (([28, 28, 28] : List ℝ).getD 0 0) = 28 from rfl]
  norm_num [kSpreadShrink, kMaxBandWidthDb, kMinBandWidthDb]

/-- Numerator of the biquad transfer function evaluated on the unit circle:
b0 + b1·e^{−jw} + b2·e^{−j2w} (peakingEQComplex, PluginEditor.cpp). -/
def biquadNum (b0 b1 b2 w : ℝ) : ℂ :=
  (b0 : ℂ) +
    (b1 : ℂ) * ((Real.cos (-w) : ℂ) + (Real.sin (-w) : ℂ) * Complex.I) +
    (b2 : ℂ) * ((Real.cos (-2 * w) : ℂ) + (Real.sin (-2 * w) : ℂ) * Complex.I)

/-- Denominator of the biquad transfer function evaluated on the unit circle:
1 + a1·e^{−jw} + a2·e^{−j2w}. -/
def biquadDen (a1 a2 w : ℝ) : ℂ :=
  1 +
    (a1 : ℂ) * ((Real.cos (-w) : ℂ) + (Real.sin (-w) : ℂ) * Complex.I) +
    (a2 : ℂ) * ((Real.cos (-2 * w) : ℂ) + (Real.sin (-2 * w) : ℂ) * Complex.I)

/-- H(e^{jw}) = num/den for an a0-normalized biquad. -/
def biquadResponse (b0 b1 b2 a1 a2 w : ℝ) : ℂ :=
  biquadNum b0 b1 b2 w / biquadDen a1 a2 w

/-- AudioPluginAudioProcessorEditor::peakingEQComplex (PluginEditor.cpp):
Audio-EQ-Cookbook peaking biquad coefficients from (f0, Q, gainDb, sampleRate),
normalized by a0, evaluated at the frequency freq. -/
def peakingEQComplex (freq f0 Q gainDb sampleRate : ℝ) : ℂ :=
  let A := (10 : ℝ) ^ (gainDb / 40)
  let w0 := 2 * Real.pi * f0 / sampleRate
  let w := 2 * Real.pi * freq / sampleRate
  let alpha := Real.sin w0 / (2 * Q)
  let b0 := 1 + alpha * A
  let b1 := -2 * Real.cos w0
  let b2 := 1 - alpha * A
  let a0 := 1 + alpha / A
  let a1 := -2 * Real.cos w0
  let a2 := 1 - alpha / A
  biquadResponse (b0 / a0) (b1 / a0) (b2 / a0) (a1 / a0) (a2 / a0) w

theorem peakingEQComplex_eq (freq f0 Q gainDb sampleRate : ℝ) :
    peakingEQComplex freq f0 Q gainDb sampleRate =
      biquadResponse
        ((1 + Real.sin (2 * Real.pi * f0 / sampleRate) / (2 * Q) * ((10 : ℝ) ^ (gainDb / 40))) /
          (1 + Real.sin (2 * Real.pi * f0 / sampleRate) / (2 * Q) / ((10 : ℝ) ^ (gainDb / 40))))
        ((-2 * Real.cos (2 * Real.pi * f0 / sampleRate)) /
          (1 + Real.sin (2 * Real.pi * f0 / sampleRate) / (2 * Q) / ((10 : ℝ) ^ (gainDb / 40))))
        ((1 - Real.sin (2 * Real.pi * f0 / sampleRate) / (2 * Q) * ((10 : ℝ) ^ (gainDb / 40))) /
          (1 + Real.sin (2 * Real.pi * f0 / sampleRate) / (2 * Q) / ((10 : ℝ) ^ (gainDb / 40))))
        ((-2 * Real.cos (2 * Real.pi * f0 / sampleRate)) /
          (1 + Real.sin (2 * Real.pi * f0 / sampleRate) / (2 * Q) / ((10 : ℝ) ^ (gainDb / 40))))
        ((1 - Real.sin (2 * Real.pi * f0 / sampleRate) / (2 * Q) / ((10 : ℝ) ^ (gainDb / 40))) /
          (1 + Real.sin (2 * Real.pi * f0 / sampleRate) / (2 * Q) / ((10 : ℝ) ^ (gainDb / 40))))
        (2 * Real.pi * freq / sampleRate) := rfl

/-- Core real-arithmetic fact: the unnormalized peaking-biquad denominator
(with positive alpha and a genuinely interior center frequency, sin w0 > 0)
cannot vanish on the unit circle. -/
theorem denCore_false (s c s0 c0 α : ℝ)
    (hsc : s * s + c * c = 1) (hsc0 : s0 * s0 + c0 * c0 = 1)
    (hα : 0 < α) (hs0 : 0 < s0)
    (hE1 : (1 + α) + (-2 * c0) * c + (1 - α) * (2 * c ^ 2 - 1) = 0)
    (hE2 : (-2 * c0) * (-s) + (1 - α) * (-(2 * s * c)) = 0) : False := by
  have hE2' : s * (c0 - (1 - α) * c) = 0 := by linear_combination hE2 / 2
  have hE1' : α * (s * s) + c * (c - c0) = 0 := by
    linear_combination hE1 / 2 + α * hsc
  rcases mul_eq_zero.mp hE2' with hs | hceq
  · have hc2 : c * c = 1 := by rw [hs] at hsc; linarith
    have hcc0 : c * (c - c0) = 0 := by rw [hs] at hE1'; linarith
    rcases mul_eq_zero.mp hcc0 with hc | hcdiff
    · rw [hc] at hc2; linarith
    · have hc0c : c0 = c := by linarith
      have hz : s0 * s0 = 0 := by rw [hc0c] at hsc0; linarith
      nlinarith
  · have hc0 : c0 = (1 - α) * c := by linarith
    have hsum : α * (s * s) + α * (c * c) = 0 := by
      rw [hc0] at hE1'
      linear_combination hE1'
    have hz : α * (s * s + c * c) = 0 := by linarith [hsum]
    rw [hsc] at hz
    linarith

/-- The normalized denominator (a1 = −2·cos w0 / a0, a2 = (1 − alpha)/a0,
a0 = 1 + alpha) never vanishes when alpha > 0 and sin w0 > 0. -/
theorem biquadDen_ne_zero (w s0 c0 α : ℝ)
    (hsc0 : s0 * s0 + c0 * c0 = 1) (hs0 : 0 < s0) (hα : 0 < α) :
    biquadDen ((-2 * c0) / (1 + α)) ((1 - α) / (1 + α)) w ≠ 0 := by
  have ha0 : (1 + α) ≠ 0 := by linarith
  have ha0c : ((1 + α : ℝ) : ℂ) ≠ 0 := by
    exact_mod_cast ha0
  have hfactor : biquadDen ((-2 * c0) / (1 + α)) ((1 - α) / (1 + α)) w =
      (((1 + α : ℝ) : ℂ) +
        ((-2 * c0 : ℝ) : ℂ) * ((Real.cos (-w) : ℂ) + (Real.sin (-w) : ℂ) * Complex.I) +
        ((1 - α : ℝ) : ℂ) * ((Real.cos (-2 * w) : ℂ) + (Real.sin (-2 * w) : ℂ) * Complex.I)) /
        ((1 + α : ℝ) : ℂ) := by
    have ha0c2 : (1 : ℂ) + (α : ℂ) ≠ 0 := by exact_mod_cast ha0
    rw [biquadDen]
    push_cast
    field_simp
  rw [hfactor]
  intro h
  rw [div_eq_zero_iff] at h
  rcases h with h | h
  · have hre := congrArg Complex.re h
    have him := congrArg Complex.im h
    simp only [Complex.add_re, Complex.add_im, Complex.mul_re, Complex.mul_im,
      Complex.ofReal_re, Complex.ofReal_im, Complex.I_re, Complex.I_im,
      Complex.zero_re, Complex.zero_im, mul_zero, mul_one, zero_mul, sub_zero,
      add_zero, zero_add, zero_sub, neg_zero] at hre him
    have hc2 : Real.cos (-2 * w) = 2 * Real.cos w ^ 2 - 1 := by
      rw [show (-2 : ℝ) * w = -(2 * w) by ring, Real.cos_neg, Real.cos_two_mul]
    have hs2 : Real.sin (-2 * w) = -(2 * Real.sin w * Real.cos w) := by
      rw [show (-2 : ℝ) * w = -(2 * w) by ring, Real.sin_neg, Real.sin_two_mul]
    have hcn : Real.cos (-w) = Real.cos w := Real.cos_neg w
    have hsn : Real.sin (-w) = -Real.sin w := Real.sin_neg w
    simp only [hcn, hsn, hc2, hs2] at hre him
    have hsc : Real.sin w * Real.sin w + Real.cos w * Real.cos w = 1 := by
      nlinarith [Real.sin_sq_add_cos_sq w]
    apply denCore_false (Real.sin w) (Real.cos w) s0 c0 α hsc hsc0 hα hs0
    · linear_combination hre
    · linear_combination him
  · exact ha0c h

/-- With gain 0 dB the normalized numerator and denominator coincide. -/
theorem biquadNum_one (a1 a2 w : ℝ) :
    biquadNum 1 a1 a2 w = biquadDen a1 a2 w := by
  rw [biquadNum, biquadDen]
  push_cast
  ring

/-- C1 (amended): for every evaluation frequency, every Q > 0, every
sampleRate > 0 and every center frequency strictly between 0 and Nyquist,
gain 0 dB gives |H| = 1 exactly. (At f0 = sampleRate/2 the denominator
vanishes at the Nyquist evaluation frequency and the claim fails; see the
counterexample.) -/
theorem C1_identity_gain (freq f0 Q sampleRate : ℝ)
    (hQ : 0 < Q) (hsr : 0 < sampleRate) (hf0 : 0 < f0) (hf0n : f0 < sampleRate / 2) :
    Complex.abs (peakingEQComplex freq f0 Q 0 sampleRate) = 1 := by
  have hpi := Real.pi_pos
  have hw0pos : 0 < 2 * Real.pi * f0 / sampleRate := by positivity
  have hw0lt : 2 * Real.pi * f0 / sampleRate < Real.pi := by
    rw [div_lt_iff hsr]
    nlinarith
  have hs0 : 0 < Real.sin (2 * Real.pi * f0 / sampleRate) :=
    Real.sin_pos_of_pos_of_lt_pi hw0pos hw0lt
  have hα : 0 < Real.sin (2 * Real.pi * f0 / sampleRate) / (2 * Q) :=
    div_pos hs0 (by linarith)
  have hA : (10 : ℝ) ^ ((0 : ℝ) / 40) = 1 := by norm_num
  rw [peakingEQComplex_eq, hA]
  rw [mul_one, div_one]
  have ha0 : 1 + Real.sin (2 * Real.pi * f0 / sampleRate) / (2 * Q) ≠ 0 := by linarith
  rw [div_self ha0]
  rw [biquadResponse, biquadNum_one,
    div_self (biquadDen_ne_zero (2 * Real.pi * freq / sampleRate)
      (Real.sin (2 * Real.pi * f0 / sampleRate)) (Real.cos (2 * Real.pi * f0 / sampleRate))
      (Real.sin (2 * Real.pi * f0 / sampleRate) / (2 * Q))
      (by nlinarith [Real.sin_sq_add_cos_sq (2 * Real.pi * f0 / sampleRate)]) hs0 hα)]
  exact map_one Complex.abs

/-- Witness for C1 at freq = 1 Hz, f0 = 1 Hz, Q = 1, sampleRate = 4 Hz. -/
theorem C1_identity_gain_witness :
    (0 : ℝ) < 1 ∧ (0 : ℝ) < 4 ∧ (1 : ℝ) < 4 / 2 ∧
      Complex.abs (peakingEQComplex 1 1 1 0 4) = 1 :=
  ⟨by norm_num, by norm_num, by norm_num,
    C1_identity_gain 1 1 1 4 (by norm_num) (by norm_num) (by norm_num) (by norm_num)⟩

/-- Counterexample for C1 as stated: with f0 = sampleRate/2 (Nyquist center),
Q = 1 > 0, sampleRate = 2 > 0 and evaluation frequency 1, gain 0 dB yields
H = 0/0, whose magnitude is 0, not 1. -/
theorem C1_identity_gain_counterexample :
    (0 : ℝ) < 1 ∧ (0 : ℝ) < 2 ∧
      Complex.abs (peakingEQComplex 1 1 1 0 2) ≠ 1 := by
  refine ⟨by norm_num, by norm_num, ?_⟩
  have hpi : 2 * Real.pi * 1 / 2 = Real.pi := by ring
  rw [peakingEQComplex_eq, hpi]
  rw [Real.sin_pi, Real.cos_pi]
  rw [biquadResponse, biquadNum, biquadDen]
  rw [Real.cos_neg, Real.sin_neg, Real.sin_pi, Real.cos_pi]
  rw [show (-2 : ℝ) * Real.pi = -(2 * Real.pi) by ring]
  rw [Real.cos_neg, Real.sin_neg, Real.cos_two_pi, Real.sin_two_pi]
  have hden : ((1 : ℂ) +
      ((-2 * -1 / (1 + 0 / (2 * 1) / 10 ^ ((0 : ℝ) / 40)) : ℝ) : ℂ) *
        (((-1 : ℝ) : ℂ) + ((-0 : ℝ) : ℂ) * Complex.I) +
      (((1 - 0 / (2 * 1) / 10 ^ ((0 : ℝ) / 40)) /
          (1 + 0 / (2 * 1) / 10 ^ ((0 : ℝ) / 40)) : ℝ) : ℂ) *
        (((1 : ℝ) : ℂ) + ((-0 : ℝ) : ℂ) * Complex.I)) = 0 := by
    push_cast
    norm_num
  rw [hden, div_zero]
  rw [map_zero]
  norm_num

/-- C2 (evaluation at the failing input): peakingEQComplex applies no numeric
guard; at the non-positive Q = −1 (f0 = freq = 1 Hz, gain 40 dB,
sampleRate = 4 Hz) it evaluates the cookbook formula anyway and returns a
magnitude-100 response instead of a skipped / 0 dB (magnitude-1) band. -/
theorem C2_no_numeric_guard :
    Complex.abs (peakingEQComplex 1 1 (-1) 40 4) = 100 ∧
    Complex.abs (peakingEQComplex 1 1 (-1) 40 4) ≠ 1 := by
  have hpi2 : 2 * Real.pi * 1 / 4 = Real.pi / 2 := by ring
  have hA : (10 : ℝ) ^ ((40 : ℝ) / 40) = 10 := by
    rw [show (40 : ℝ) / 40 = 1 by norm_num, Real.rpow_one]
  have hmain : Complex.abs (peakingEQComplex 1 1 (-1) 40 4) = 100 := by
    rw [peakingEQComplex_eq, hpi2, hA]
    rw [Real.sin_pi_div_two, Real.cos_pi_div_two]
    rw [biquadResponse, biquadNum, biquadDen]
    rw [Real.cos_neg, Real.sin_neg, Real.sin_pi_div_two, Real.cos_pi_div_two]
    rw [show (-2 : ℝ) * (Real.pi / 2) = -Real.pi by ring]
    rw [Real.cos_neg, Real.sin_neg, Real.cos_pi, Real.sin_pi]
    have hnum : (((1 + 1 / (2 * -1) * 10) / (1 + 1 / (2 * -1) / 10) : ℝ) : ℂ) +
        ((-2 * 0 / (1 + 1 / (2 * -1) / 10) : ℝ) : ℂ) *
          (((0 : ℝ) : ℂ) + ((-1 : ℝ) : ℂ) * Complex.I) +
        (((1 - 1 / (2 * -1) * 10) / (1 + 1 / (2 * -1) / 10) : ℝ) : ℂ) *
          (((-1 : ℝ) : ℂ) + ((-0 : ℝ) : ℂ) * Complex.I) = ((-200 / 19 : ℝ) : ℂ) := by
      push_cast
      ring_nf
    have hden : ((1 : ℂ) +
        ((-2 * 0 / (1 + 1 / (2 * -1) / 10) : ℝ) : ℂ) *
          (((0 : ℝ) : ℂ) + ((-1 : ℝ) : ℂ) * Complex.I) +
        (((1 - 1 / (2 * -1) / 10) / (1 + 1 / (2 * -1) / 10) : ℝ) : ℂ) *
          (((-1 : ℝ) : ℂ) + ((-0 : ℝ) : ℂ) * Complex.I)) = ((-2 / 19 : ℝ) : ℂ) := by
      push_cast
      ring_nf
    rw [hnum, hden, ← Complex.ofReal_div, Complex.abs_ofReal]
    norm_num
  exact ⟨hmain, by rw [hmain]; norm_num⟩

/-- 1/3-octave band center frequencies (IEC 61260) used by
updateSpectrumArray (PluginProcessor.cpp). -/
def thirdOctaveCenterFreqs : List ℝ :=
  [20, 25, 31.5, 40, 50, 63, 80, 100, 125, 160, 200,
   250, 315, 400, 500, 630, 800, 1000, 1250, 1600, 2000,
   2500, 3150, 4000, 5000, 6300, 8000, 10000, 12500, 16000, 20000]

/-- juce::Decibels::gainToDecibels with an explicit −∞ floor. -/
def gainToDecibels (gain minusInfinityDb : ℝ) : ℝ :=
  if 0 < gain then max minusInfinityDb (20 * Real.logb 10 gain) else minusInfinityDb

/-- FFT frame size (fftOrder = 12). -/
def fftSize : ℕ := 4096

/-- The band loop of AudioPluginAudioProcessor::updateSpectrumArray: one
SpectrumPoint per band, break (return) as soon as a band's lower edge reaches
Nyquist, skip a band if its clamped bin range is empty. -/
def buildBands (fftData : ℕ → ℝ) (sampleRate : ℝ) : List ℝ → List SpectrumPoint
  | [] => []
  | centerFreq :: rest =>
    let bandwidthFactor := (2 : ℝ) ^ ((1 : ℝ) / 6)
    let lowerFreq := centerFreq / bandwidthFactor
    if lowerFreq ≥ sampleRate / 2 then []
    else
      let upperFreq := min (centerFreq * bandwidthFactor) (sampleRate / 2)
      let binWidth := sampleRate / (fftSize : ℝ)
      let maxBin : ℤ := (fftSize : ℤ) / 2 - 1
      let lowerBin := jlimitInt 1 maxBin ⌊lowerFreq / binWidth⌋
      let upperBin := jlimitInt 1 maxBin ⌈upperFreq / binWidth⌉
      if upperBin < lowerBin then buildBands fftData sampleRate rest
      else
        let bins := (List.range (upperBin - lowerBin + 1).toNat).map
          (fun k => lowerBin + (k : ℤ))
        let bandEnergy := (bins.map (fun bin => (fftData bin.toNat / (fftSize : ℝ)) ^ 2)).sum
        let binCount := bins.length
        let meanEnergy := if 0 < binCount then bandEnergy / (binCount : ℝ) else bandEnergy
        let bandMagnitude := Real.sqrt meanEnergy
        let dbFs := gainToDecibels bandMagnitude (-160)
        ⟨centerFreq, dbFs⟩ :: buildBands fftData sampleRate rest

/-- updateSpectrumArray (PluginProcessor.cpp): the previous spectrumArray is
cleared and rebuilt from the windowed FFT magnitudes, so the old contents do
not enter the result at all. -/
def updateSpectrumArray (oldSpectrumArray : List SpectrumPoint) (fftData : ℕ → ℝ)
    (sampleRate : ℝ) : List SpectrumPoint :=
  buildBands fftData sampleRate thirdOctaveCenterFreqs

theorem jlimitInt_mono (lo hi v w : ℤ) (hlh : lo ≤ hi) (hvw : v ≤ w) :
    jlimitInt lo hi v ≤ jlimitInt lo hi w := by
  rw [jlimitInt, jlimitInt]
  split_ifs <;> omega

theorem buildBands_freqs (fftData : ℕ → ℝ) (sr : ℝ) (hsr : 0 < sr) :
    ∀ (cs : List ℝ), (∀ c ∈ cs, 0 < c) →
      (buildBands fftData sr cs).map (fun p => p.frequency) =
        cs.takeWhile (fun c => decide (c / (2 : ℝ) ^ ((1 : ℝ) / 6) < sr / 2)) := by
  intro cs
  induction cs with
  | nil => intro _; rfl
  | cons c rest ih =>
    intro hpos
    have hc : 0 < c := hpos c (List.mem_cons_self c rest)
    have hbf : 1 < (2 : ℝ) ^ ((1 : ℝ) / 6) :=
      (Real.one_lt_rpow_iff_of_pos (by norm_num)).mpr (Or.inl ⟨by norm_num, by norm_num⟩)
    rw [buildBands]
    by_cases hbreak : c / (2 : ℝ) ^ ((1 : ℝ) / 6) ≥ sr / 2
    · rw [if_pos hbreak, List.takeWhile_cons]
      rw [if_neg (by simpa using not_lt.mpr hbreak)]
      rfl
    · rw [if_neg hbreak]
      have hlt : c / (2 : ℝ) ^ ((1 : ℝ) / 6) < sr / 2 := not_le.mp hbreak
      have hbw : 0 < sr / (fftSize : ℝ) := by
        apply div_pos hsr
        rw [fftSize]
        norm_num
      have hfreqle : c / (2 : ℝ) ^ ((1 : ℝ) / 6) ≤
          min (c * (2 : ℝ) ^ ((1 : ℝ) / 6)) (sr / 2) := by
        apply le_min
        · calc c / (2 : ℝ) ^ ((1 : ℝ) / 6) ≤ c := div_le_self (le_of_lt hc) (le_of_lt hbf)
            _ ≤ c * (2 : ℝ) ^ ((1 : ℝ) / 6) :=
              le_mul_of_one_le_right (le_of_lt hc) (le_of_lt hbf)
        · exact le_of_lt hlt
      have hdivle : c / (2 : ℝ) ^ ((1 : ℝ) / 6) / (sr / (fftSize : ℝ)) ≤
          min (c * (2 : ℝ) ^ ((1 : ℝ) / 6)) (sr / 2) / (sr / (fftSize : ℝ)) := by
        gcongr
      have hbinle : jlimitInt 1 ((fftSize : ℤ) / 2 - 1)
            ⌊c / (2 : ℝ) ^ ((1 : ℝ) / 6) / (sr / (fftSize : ℝ))⌋ ≤
          jlimitInt 1 ((fftSize : ℤ) / 2 - 1)
            ⌈min (c * (2 : ℝ) ^ ((1 : ℝ) / 6)) (sr / 2) / (sr / (fftSize : ℝ))⌉ := by
        apply jlimitInt_mono
        · rw [fftSize]; omega
        · calc ⌊c / (2 : ℝ) ^ ((1 : ℝ) / 6) / (sr / (fftSize : ℝ))⌋ ≤
              ⌊min (c * (2 : ℝ) ^ ((1 : ℝ) / 6)) (sr / 2) / (sr / (fftSize : ℝ))⌋ :=
                Int.floor_mono hdivle
            _ ≤ _ := Int.floor_le_ceil _
      rw [if_neg (not_lt.mpr hbinle)]
      rw [List.map_cons, List.takeWhile_cons,
        if_pos (show decide (c / (2 : ℝ) ^ ((1 : ℝ) / 6) < sr / 2) = true by simpa using hlt)]
      rw [ih (fun q hq => hpos q (List.mem_cons_of_mem c hq))]

/-- C8: for every sampleRate > 0, updateSpectrumArray fully replaces the old
array (the result does not depend on it); its output frequencies are exactly
the prefix of the 1/3-octave centers whose lower band edge is below Nyquist
(one point per such band, all bands from the first at-or-above-Nyquist edge on
omitted); and they are strictly increasing. -/
theorem C8_update_spectrum (old1 old2 : List SpectrumPoint) (fftData : ℕ → ℝ)
    (sr : ℝ) (hsr : 0 < sr) :
    updateSpectrumArray old1 fftData sr = updateSpectrumArray old2 fftData sr ∧
    (updateSpectrumArray old1 fftData sr).map (fun p => p.frequency) =
      thirdOctaveCenterFreqs.takeWhile
        (fun c => decide (c / (2 : ℝ) ^ ((1 : ℝ) / 6) < sr / 2)) ∧
    List.Chain' (fun a b : ℝ => a < b)
      ((updateSpectrumArray old1 fftData sr).map (fun p => p.frequency)) := by
  have hpos : ∀ c ∈ thirdOctaveCenterFreqs, (0 : ℝ) < c := by
    intro c hc
    rw [thirdOctaveCenterFreqs] at hc
    simp only [List.mem_cons, List.not_mem_nil, or_false] at hc
    rcases hc with h | h | h | h | h | h | h | h | h | h | h | h | h | h | h | h |
      h | h | h | h | h | h | h | h | h | h | h | h | h | h | h <;> rw [h] <;> norm_num
  have hfreqs := buildBands_freqs fftData sr hsr thirdOctaveCenterFreqs hpos
  refine ⟨rfl, hfreqs, ?_⟩
  rw [updateSpectrumArray, hfreqs]
  have hchain : List.Chain' (fun a b : ℝ => a < b) thirdOctaveCenterFreqs := by
    rw [thirdOctaveCenterFreqs]
    norm_num [List.chain'_cons]
  exact hchain.prefix (List.takeWhile_prefix _)

/-- Witness for C8 at sampleRate 100 Hz: only the bands whose lower edge is
below 50 Hz survive, so the output frequency list is a strict prefix. -/
theorem C8_update_spectrum_witness :
    (0 : ℝ) < 100 ∧
    (updateSpectrumArray [] (fun _ => 0) 100).map (fun p => p.frequency) =
      thirdOctaveCenterFreqs.takeWhile
        (fun c => decide (c / (2 : ℝ) ^ ((1 : ℝ) / 6) < (100 : ℝ) / 2)) :=
  ⟨by norm_num, (C8_update_spectrum [] [] (fun _ => 0) 100 (by norm_num)).2.1⟩

/-- AudioPluginAudioProcessorEditor::validateAutoEQData: both the averaged
measurement and the loaded reference curve must be nonempty. -/
def validateAutoEQData (spectrum : List SpectrumPoint)
    (referenceBands : List ReferenceBand) : Bool :=
  if spectrum.isEmpty then false
  else if referenceBands.isEmpty then false
  else true

/-- calculateMeanOffset (PluginEditor.cpp): mean of the residuals whose band
frequency lies in [50 Hz, 10 kHz], clamped to the input-gain range ±24 dB. -/
def calculateMeanOffset (residuals : List ℝ) : ℝ :=
  let idxs := (List.range 31).filter (fun i =>
    !(decide (eqFrequencies.getD i 0 < 50) || decide (eqFrequencies.getD i 0 > 10000)))
  let sum := (idxs.map (fun i => residuals.getD i 0)).sum
  let count := idxs.length
  let meanOffset := if 0 < count then sum / (count : ℝ) else 0
  jlimit (-24) 24 meanOffset

/-- computeReferenceViewOffsetDb (PluginEditor.cpp): median of the
reference-minus-measured differences over the stable 50 Hz – 10 kHz range
(std::nth_element at index size/2), clamped to ±36 dB. -/
def computeReferenceViewOffsetDb (referenceBands : List ReferenceBand)
    (spectrum : List SpectrumPoint) : ℝ :=
  if spectrum.isEmpty ∨ referenceBands.isEmpty then 0
  else
    let diffs := (eqFrequencies.filter (fun f =>
        !(decide (f < 50) || decide (f > 10000)))).map
      (fun f => findReferenceLevel referenceBands f -
        sampleLogInterpolatedSpectrum spectrum f DisplayScaleMinDb)
    if diffs.isEmpty then 0
    else
      let sorted := diffs.mergeSort (fun a b => decide (a ≤ b))
      let median := sorted.getD (diffs.length / 2) 0
      jlimit (-36) 36 median

/-- applyCorrections (PluginEditor.cpp): per band, subtract the mean offset,
clamp to ±12 dB and store into targetCorrections. -/
def applyCorrections (residuals : List ℝ) (meanOffset : ℝ) : List ℝ :=
  (List.range 31).map (fun i => jlimit (-12) 12 (residuals.getD i 0 - meanOffset))

/-- The editor/processor state touched by applyAutoEQ. -/
structure EditorState where
  measurementBuffer : List (List SpectrumPoint)
  referenceBands : List ReferenceBand
  targetCorrections : List ℝ
  hasTargetCorrections : Bool
  inputGain : ℝ
  gains : List ℝ
  qs : List ℝ

/-- AudioPluginAudioProcessorEditor::applyAutoEQ (second definition,
PluginEditor.cpp): refuse when validation fails, otherwise compute the aligned
residuals, remove 20% of the mean offset, smooth, scale by kAutoEqAmount and
store the clamped corrections, setting hasTargetCorrections. -/
def applyAutoEQ (st : EditorState) : EditorState :=
  if validateAutoEQData (getAveragedSpectrum st.measurementBuffer) st.referenceBands
      = false then st
  else
    let averagedSpectrum := getAveragedSpectrum st.measurementBuffer
    let offsetDb := computeReferenceViewOffsetDb st.referenceBands averagedSpectrum
    let residuals := calculateResidualsAligned st.referenceBands averagedSpectrum offsetDb
    let meanOffset := calculateMeanOffset residuals
    let r1 := residuals.map (fun r => r - 0.2 * meanOffset)
    let r2 := smoothMovingAverage r1 5 1
    let r3 := r2.map (fun r => r * kAutoEqAmount)
    { st with targetCorrections := applyCorrections r3 0,
              hasTargetCorrections := true }

theorem validateAutoEQData_empty (sp : List SpectrumPoint) (rb : List ReferenceBand)
    (h : sp = [] ∨ rb = []) : validateAutoEQData sp rb = false := by
  rcases h with rfl | rfl
  · rfl
  · rw [validateAutoEQData]
    split_ifs with h1 h2
    · rfl
    · rfl
    · exact absurd rfl h2


/-- C9: when the averaged measured spectrum is empty (no snapshots) or no
reference curve is loaded, applyAutoEQ is a strict no-op: the whole editor and
processor state — targetCorrections, hasTargetCorrections, every filter gain
and Q, and the input gain — is returned unchanged (it is a total function, no
fatal error path). -/
theorem C9_missing_data_noop (st : EditorState)
    (h : getAveragedSpectrum st.measurementBuffer = [] ∨ st.referenceBands = []) :
    applyAutoEQ st = st := by
  rw [applyAutoEQ, if_pos (validateAutoEQData_empty _ _ h)]

/-- Witness for C9: an empty measurement buffer leaves a concrete state with
prior corrections, input gain 5 dB and gain/Q lists untouched. -/
theorem C9_missing_data_noop_witness :
    applyAutoEQ ⟨[], [], [1, 2], false, 5, [0, 3], [1, 1]⟩ =
      ⟨[], [], [1, 2], false, 5, [0, 3], [1, 1]⟩ :=
  C9_missing_data_noop ⟨[], [], [1, 2], false, 5, [0, 3], [1, 1]⟩ (Or.inl rfl)

/-- The input-gain write in the first applyAutoEQ definition
(PluginEditor.cpp):  p->setValueNotifyingHost(p->convertTo0to1(meanOffset)).
convertTo0to1 clamps to the parameter range [−24, 24] and the host stores the
denormalized result, so the new parameter value is jlimit(−24, 24, meanOffset)
— the previous value is not read. -/
def inputGainAfterAutoEQ (previousGainDb meanOffset : ℝ) : ℝ :=
  jlimit (-24) 24 meanOffset

/-- C6 (evaluation at the failing input): with a prior input gain of 5 dB and
a computed mean offset of 0 dB, the first applyAutoEQ definition overwrites
the parameter to 0 dB — not to 5 + 0 dB as claimed — and the second
applyAutoEQ definition never writes the input gain at all. -/
theorem C6_input_gain_overwrite :
    inputGainAfterAutoEQ 5 0 = 0 ∧
    inputGainAfterAutoEQ 5 0 ≠ 5 + 0 ∧
    (∀ st : EditorState, (applyAutoEQ st).inputGain = st.inputGain) := by
  refine ⟨?_, ?_, ?_⟩
  · rw [inputGainAfterAutoEQ, jlimit]
    norm_num
  · rw [inputGainAfterAutoEQ, jlimit]
    norm_num
  · intro st
    rw [applyAutoEQ]
    split_ifs <;> rfl

/-- The FFT accumulation state owned by one spectral-estimator instance. -/
structure FifoState where
  fifo : ℕ → ℝ
  fifoIndex : ℕ
  fftData : ℕ → ℝ
  nextFFTBlockReady : Bool

/-- AudioPluginAudioProcessor::pushNextSampleIntoFifo: when the FIFO fills,
publish a copy into fftData only if the ready flag is still clear (otherwise
drop the frame), restart accumulation, then store the incoming sample. -/
def pushNextSampleIntoFifo (st : FifoState) (sample : ℝ) : FifoState :=
  let st1 :=
    if st.fifoIndex = fftSize then
      if st.nextFFTBlockReady = false then
        { st with fftData := fun i => if i < fftSize then st.fifo i else 0,
                  nextFFTBlockReady := true, fifoIndex := 0 }
      else { st with fifoIndex := 0 }
    else st
  { st1 with fifo := fun i => if i = st1.fifoIndex then sample else st1.fifo i,
             fifoIndex := st1.fifoIndex + 1 }

/-- AudioPluginAudioProcessor::pushNextSampleIntoPreEQFifo: identical logic on
the pre-EQ instance's own state. -/
def pushNextSampleIntoPreEQFifo (st : FifoState) (sample : ℝ) : FifoState :=
  let st1 :=
    if st.fifoIndex = fftSize then
      if st.nextFFTBlockReady = false then
        { st with fftData := fun i => if i < fftSize then st.fifo i else 0,
                  nextFFTBlockReady := true, fifoIndex := 0 }
      else { st with fifoIndex := 0 }
    else st
  { st1 with fifo := fun i => if i = st1.fifoIndex then sample else st1.fifo i,
             fifoIndex := st1.fifoIndex + 1 }

/-- C10: per input sample, for both FIFOs: fftData changes only when the FIFO
is exactly full and the ready flag is clear; a frame completed while the flag
is still set is dropped (fftData untouched, flag stays set, accumulation
restarts at index 1); and whenever the flag turns from false to true, the
FIFO was full and fftData now holds exactly the completed frame. -/
theorem C10_fifo_no_overwrite (st : FifoState) (sample : ℝ) :
    ((st.fifoIndex ≠ fftSize ∨ st.nextFFTBlockReady = true) →
      (pushNextSampleIntoFifo st sample).fftData = st.fftData) ∧
    (st.fifoIndex = fftSize → st.nextFFTBlockReady = true →
      (pushNextSampleIntoFifo st sample).nextFFTBlockReady = true ∧
      (pushNextSampleIntoFifo st sample).fftData = st.fftData ∧
      (pushNextSampleIntoFifo st sample).fifoIndex = 1) ∧
    (st.nextFFTBlockReady = false →
      (pushNextSampleIntoFifo st sample).nextFFTBlockReady = true →
      st.fifoIndex = fftSize ∧
      (pushNextSampleIntoFifo st sample).fftData =
        fun i => if i < fftSize then st.fifo i else 0) ∧
    ((st.fifoIndex ≠ fftSize ∨ st.nextFFTBlockReady = true) →
      (pushNextSampleIntoPreEQFifo st sample).fftData = st.fftData) ∧
    (st.fifoIndex = fftSize → st.nextFFTBlockReady = true →
      (pushNextSampleIntoPreEQFifo st sample).nextFFTBlockReady = true ∧
      (pushNextSampleIntoPreEQFifo st sample).fftData = st.fftData ∧
      (pushNextSampleIntoPreEQFifo st sample).fifoIndex = 1) ∧
    (st.nextFFTBlockReady = false →
      (pushNextSampleIntoPreEQFifo st sample).nextFFTBlockReady = true →
      st.fifoIndex = fftSize ∧
      (pushNextSampleIntoPreEQFifo st sample).fftData =
        fun i => if i < fftSize then st.fifo i else 0) := by
  by_cases hidx : st.fifoIndex = fftSize <;> by_cases hrdy : st.nextFFTBlockReady = false <;>
    refine ⟨?_, ?_, ?_, ?_, ?_, ?_⟩ <;> intros <;>
      simp_all [pushNextSampleIntoFifo, pushNextSampleIntoPreEQFifo]

/-- Witness for C10: with the FIFO full (index 4096) and the flag still set,
the pending fftData frame (all ones) survives, the flag stays set, and
accumulation restarts at index 1. -/
theorem C10_fifo_no_overwrite_witness :
    (pushNextSampleIntoFifo ⟨fun _ => 0, 4096, fun _ => 1, true⟩ 0).nextFFTBlockReady
        = true ∧
    (pushNextSampleIntoFifo ⟨fun _ => 0, 4096, fun _ => 1, true⟩ 0).fftData
        = (fun _ => (1 : ℝ)) ∧
    (pushNextSampleIntoFifo ⟨fun _ => 0, 4096, fun _ => 1, true⟩ 0).fifoIndex = 1 :=
  (C10_fifo_no_overwrite ⟨fun _ => 0, 4096, fun _ => 1, true⟩ 0).2.1 rfl rfl

end
